import Mathlib

/-
  Verification development for the in-process ZooKeeper emulator
  (dbms/src/Common/ZooKeeper/TestKeeper.cpp, namespace Coordination).

  The data store, the per-request `process` functions, the multi
  transaction, the watch registries and the session lifecycle are
  embedded as executable Lean definitions, translated directly from
  the C++ source.  Machine integers of the source (int32_t/int64_t)
  are modelled as Int; the per-parent sequential counter, which the
  source only ever increments starting from zero, is modelled as Nat
  so that its decimal rendering is direct.
-/

namespace TK

/-- Error codes used by the TestKeeper core (Coordination error enum). -/
inductive KError
  | ZOK
  | ZNONODE
  | ZNODEEXISTS
  | ZNOCHILDRENFOREPHEMERALS
  | ZBADVERSION
  | ZNOTEMPTY
  | ZBADARGUMENTS
  | ZSESSIONEXPIRED
  | ZOPERATIONTIMEOUT
  deriving DecidableEq

/-- Per-node metadata record (Coordination::Stat). -/
structure Stat where
  czxid : Int
  mzxid : Int
  ctime : Int
  mtime : Int
  version : Int
  cversion : Int
  numChildren : Int
  dataLength : Int
  deriving DecidableEq

/-- The zero-filled stat: value-initialized Stat of the source. -/
def statZero : Stat := ⟨0, 0, 0, 0, 0, 0, 0, 0⟩

/-- A node of the hierarchical store (TestKeeper::Node).  The member name
`is_sequental` reproduces the source's spelling. -/
structure Node where
  data : String
  is_ephemeral : Bool
  is_sequental : Bool
  seq_num : Nat
  stat : Stat
  deriving DecidableEq

/-- The container: the ordered map from full path to node record
(std::map<String, Node>), modelled as an association list kept sorted
by key; keys are unique. -/
abbrev Container := List (String × Node)

/-- map::find / map::count, returning the mapped node. -/
def cFind : Container → String → Option Node
  | [], _ => none
  | (k, n) :: rest, p => if k = p then some n else cFind rest p

/-- Lexicographic comparison of character lists, written out so that it
evaluates by kernel reduction; on paths it agrees with the byte-wise
key order of std::map<String, Node> (UTF-8 preserves code-point
order). -/
def charListLt : List Char → List Char → Bool
  | [], [] => false
  | [], _ :: _ => true
  | _ :: _, [] => false
  | a :: as, b :: bs =>
    if a.val.toNat < b.val.toNat then true
    else if b.val.toNat < a.val.toNat then false
    else charListLt as bs

/-- The std::map key order on paths. -/
def strLt (a b : String) : Bool := charListLt a.toList b.toList

/-- startsWith on the character lists (the prefix is the first
argument), written out so that it evaluates by kernel reduction. -/
def isPrefixChars : List Char → List Char → Bool
  | [], _ => true
  | _ :: _, [] => false
  | a :: as, b :: bs => a == b && isPrefixChars as bs

/-- map::emplace: insert at the sorted position, no-op if the key exists. -/
def cInsert : Container → String → Node → Container
  | [], p, n => [(p, n)]
  | (k, m) :: rest, p, n =>
    if p = k then (k, m) :: rest
    else if strLt p k then (p, n) :: (k, m) :: rest
    else (k, m) :: cInsert rest p n

/-- map::erase of the iterator returned by find: remove the (unique)
entry with the given key. -/
def cErase : Container → String → Container
  | [], _ => []
  | (k, n) :: rest, p => if k = p then rest else (k, n) :: cErase rest p

/-- In-place mutation of the node reached through an iterator or
map::at: rewrite the (unique) entry with the given key. -/
def cUpdate : Container → String → (Node → Node) → Container
  | [], _, _ => []
  | (k, n) :: rest, p, f =>
    if k = p then (k, f n) :: cUpdate rest p f
    else (k, n) :: cUpdate rest p f

/-- Index of the last '/' in the character list (String::rfind of the
source); none plays the role of String::npos. -/
def lastSlashPos : List Char → Option Nat
  | [] => none
  | c :: rest =>
    match lastSlashPos rest with
    | some i => some (i + 1)
    | none => if c = '/' then some 0 else none

/-- parentPath of TestKeeper.cpp: substr up to the last slash when that
slash is at a positive position, "/" when the last slash is at position
0, and the whole path when there is no slash (npos > 0 holds, and
substr(0, npos) is the whole string). -/
def parentPath (path : String) : String :=
  match lastSlashPos path.toList with
  | none => path
  | some i => if 0 < i then String.mk (path.toList.take i) else "/"

/-- baseName of TestKeeper.cpp: substr(rslash_pos + 1); when there is
no slash, npos + 1 wraps to 0 and the whole string is returned. -/
def baseName (path : String) : String :=
  match lastSlashPos path.toList with
  | none => path
  | some i => String.mk (path.toList.drop (i + 1))

/-- The 10-digit zero-padded decimal rendering of the sequential
counter (std::setw(10) << std::setfill('0') << seq_num). -/
def pad10 (n : Nat) : String :=
  let ds := Nat.toDigits 10 n
  String.mk (List.replicate (10 - ds.length) '0' ++ ds)

/-- Typed responses of the request variants; the `multi` variant carries
the per-sub response list of MultiResponse. -/
inductive Response
  | create (path_created : String) (error : KError)
  | remove (error : KError)
  | exists' (stat : Stat) (error : KError)
  | get (stat : Stat) (data : String) (error : KError)
  | set (stat : Stat) (error : KError)
  | list (names : List String) (stat : Stat) (error : KError)
  | check (error : KError)
  | multi (responses : List Response) (error : KError)

/-- The error field shared by every response variant. -/
def Response.error : Response → KError
  | .create _ e => e
  | .remove e => e
  | .exists' _ e => e
  | .get _ _ e => e
  | .set _ e => e
  | .list _ _ e => e
  | .check e => e
  | .multi _ e => e

/-- TestKeeperCreateRequest::process.  Never throws; returns the
response together with the container after the call.  `now_ms` stands
for the clock sample the source takes for ctime/mtime. -/
def createProcess (path data : String) (is_ephemeral is_sequential : Bool)
    (container : Container) (zxid now_ms : Int) : Response × Container :=
  if (cFind container path).isSome then
    (.create "" KError.ZNODEEXISTS, container)
  else
    match cFind container (parentPath path) with
    | none => (.create "" KError.ZNONODE, container)
    | some parent =>
      if parent.is_ephemeral then
        (.create "" KError.ZNOCHILDRENFOREPHEMERALS, container)
      else
        let created : Node :=
          { data := data
            is_ephemeral := is_ephemeral
            is_sequental := is_sequential
            seq_num := 0
            stat :=
              { czxid := zxid, mzxid := zxid, ctime := now_ms, mtime := now_ms
                version := 0, cversion := 0, numChildren := 0
                dataLength := (data.length : Int) } }
        let step :=
          if is_sequential then
            (path ++ pad10 parent.seq_num,
             cUpdate container (parentPath path)
               (fun nd => { nd with seq_num := nd.seq_num + 1 }))
          else (path, container)
        let path_created := step.1
        let c1 := cInsert step.2 path_created created
        let c2 := cUpdate c1 (parentPath path)
          (fun nd => { nd with stat :=
            { nd.stat with cversion := nd.stat.cversion + 1
                           numChildren := nd.stat.numChildren + 1 } })
        (.create path_created KError.ZOK, c2)

/-- TestKeeperRemoveRequest::process.  The success branch erases the
node and then dereferences container.at(parentPath(path)); a failing
lookup there is the std::out_of_range throw, rendered as `none`
together with the container as already mutated at the throw point. -/
def removeProcess (path : String) (version : Int) (container : Container) :
    Option Response × Container :=
  match cFind container path with
  | none => (some (.remove KError.ZNONODE), container)
  | some node =>
    if version ≠ -1 ∧ version ≠ node.stat.version then
      (some (.remove KError.ZBADVERSION), container)
    else if node.stat.numChildren ≠ 0 then
      (some (.remove KError.ZNOTEMPTY), container)
    else
      let c1 := cErase container path
      match cFind c1 (parentPath path) with
      | none => (none, c1)
      | some _ =>
        (some (.remove KError.ZOK),
         cUpdate c1 (parentPath path)
           (fun nd => { nd with stat :=
             { nd.stat with numChildren := nd.stat.numChildren - 1
                            cversion := nd.stat.cversion + 1 } }))

/-- TestKeeperExistsRequest::process. -/
def existsProcess (path : String) (container : Container) : Response :=
  match cFind container path with
  | some node => .exists' node.stat KError.ZOK
  | none => .exists' statZero KError.ZNONODE

/-- TestKeeperGetRequest::process. -/
def getProcess (path : String) (container : Container) : Response :=
  match cFind container path with
  | none => .get statZero "" KError.ZNONODE
  | some node => .get node.stat node.data KError.ZOK

/-- TestKeeperSetRequest::process.  The success branch mutates the node
(data, version, mzxid, mtime — and assigns data a second time where the
reference semantics would update dataLength), then bumps the parent's
cversion through container.at (a failing lookup there is the throw,
rendered as `none`), and reads the response stat from the container
after all mutations. -/
def setProcess (path data : String) (version : Int)
    (container : Container) (zxid now_ms : Int) : Option Response × Container :=
  match cFind container path with
  | none => (some (.set statZero KError.ZNONODE), container)
  | some node =>
    if version = -1 ∨ version = node.stat.version then
      let c1 := cUpdate container path fun nd =>
        { nd with data := data
                  stat := { nd.stat with version := nd.stat.version + 1
                                         mzxid := zxid
                                         mtime := now_ms } }
      match cFind c1 (parentPath path) with
      | none => (none, c1)
      | some _ =>
        let c2 := cUpdate c1 (parentPath path) fun nd =>
          { nd with stat := { nd.stat with cversion := nd.stat.cversion + 1 } }
        match cFind c2 path with
        | some nd => (some (.set nd.stat KError.ZOK), c2)
        | none => (none, c2)
    else
      (some (.set statZero KError.ZBADVERSION), container)

/-- TestKeeperListRequest::process.  The child walk
(upper_bound(path_prefix) then advance while the key starts with the
prefix) is rendered as the equivalent filter over the sorted container:
keys strictly above the prefix that start with it.  The impossible
empty-path throw of the source is rendered as `none`. -/
def listProcess (path : String) (container : Container) : Option Response :=
  match cFind container path with
  | none => some (.list [] statZero KError.ZNONODE)
  | some node =>
    if path = "" then none
    else
      let pathPref := if path.toList.getLast? = some '/' then path else path ++ "/"
      let names :=
        (container.filter fun e =>
          strLt pathPref e.1 && isPrefixChars pathPref.toList e.1.toList
            && decide (parentPath e.1 = path)).map fun e => baseName e.1
      some (.list names node.stat KError.ZOK)

/-- TestKeeperCheckRequest::process. -/
def checkProcess (path : String) (version : Int) (container : Container) :
    Response :=
  match cFind container path with
  | none => .check KError.ZNONODE
  | some node =>
    if version ≠ -1 ∧ version ≠ node.stat.version then .check KError.ZBADVERSION
    else .check KError.ZOK

/-- The request kinds admissible inside a TestKeeperMultiRequest after
construction (Create, Remove, Set, Check). -/
inductive TKSubRequest
  | create (path data : String) (is_ephemeral is_sequential : Bool)
  | remove (path : String) (version : Int)
  | set (path data : String) (version : Int)
  | check (path : String) (version : Int)
  deriving DecidableEq

/-- Dispatch of TestKeeperRequest::process over the admissible
sub-request kinds; `none` renders a throw. -/
def subProcess : TKSubRequest → Container → Int → Int → Option Response × Container
  | .create p d e s, c, zxid, now =>
    let r := createProcess p d e s c zxid now
    (some r.1, r.2)
  | .remove p v, c, _, _ => removeProcess p v c
  | .set p d v, c, zxid, now => setProcess p d v c zxid now
  | .check p v, c, _, _ => (some (checkProcess p v c), c)

/-- The loop of TestKeeperMultiRequest::process: apply sub-requests in
order against the live container, accumulating per-sub responses; stop
on the first non-ZOK sub-response (echoing its error) or on a throw. -/
def multiGo (zxid now : Int) :
    List TKSubRequest → Container → List Response →
      Option (List Response × KError) × Container
  | [], c, acc => (some (acc, KError.ZOK), c)
  | r :: rest, c, acc =>
    match subProcess r c zxid now with
    | (none, c') => (none, c')
    | (some resp, c') =>
      if resp.error ≠ KError.ZOK then (some (acc ++ [resp], resp.error), c')
      else multiGo zxid now rest c' (acc ++ [resp])

/-- TestKeeperMultiRequest::process: snapshot the container, run the
loop, restore the snapshot on the first non-ZOK sub-response and on any
throw (`none` propagates the rethrow). -/
def multiProcess (subs : List TKSubRequest) (container : Container)
    (zxid now : Int) : Option Response × Container :=
  match multiGo zxid now subs container [] with
  | (none, _) => (none, container)
  | (some (resps, e), c') =>
    if e = KError.ZOK then (some (.multi resps e), c')
    else (some (.multi resps e), container)

/-- Generic client-side request kinds, as the dynamic types presented
to the TestKeeperMultiRequest constructor. -/
inductive GenericRequest
  | create (path data : String) (is_ephemeral is_sequential : Bool)
  | remove (path : String) (version : Int)
  | exists' (path : String)
  | get (path : String)
  | set (path data : String) (version : Int)
  | list (path : String)
  | check (path : String) (version : Int)
  | multi (subs : List GenericRequest)

/-- The dynamic_cast chain of the TestKeeperMultiRequest constructor:
Create, Remove, Set and Check requests convert; everything else is the
illegal-command case. -/
def toSubRequest : GenericRequest → Option TKSubRequest
  | .create p d e s => some (.create p d e s)
  | .remove p v => some (.remove p v)
  | .set p d v => some (.set p d v)
  | .check p v => some (.check p v)
  | _ => none

/-- TestKeeperMultiRequest::TestKeeperMultiRequest: convert the generic
sub-requests in order, throwing ZBADARGUMENTS at the first one that is
not Create, Remove, Set or Check. -/
def buildMulti : List GenericRequest → Except KError (List TKSubRequest)
  | [] => .ok []
  | r :: rest =>
    match toSubRequest r with
    | none => .error KError.ZBADARGUMENTS
    | some s =>
      match buildMulti rest with
      | .ok ss => .ok (s :: ss)
      | .error e => .error e

/-- The kinds the spec admits in a multi, stated independently of the
conversion function. -/
def admissibleInMulti : GenericRequest → Bool
  | .create _ _ _ _ => true
  | .remove _ _ => true
  | .set _ _ _ => true
  | .check _ _ => true
  | _ => false

/-- A watch registry (data watches or child/list watches): a map from
path to the callbacks registered under it, in registration order.
Callbacks are identified by the id of the request envelope that
registered them. -/
abbrev Watches := List (String × List Nat)

/-- map::operator[] followed by emplace_back: append the callback under
the key, creating the entry when absent. -/
def addWatch : Watches → String → Nat → Watches
  | [], key, i => [(key, [i])]
  | (k, l) :: rest, key, i =>
    if k = key then (k, l ++ [i]) :: rest
    else (k, l) :: addWatch rest key i

/-- map::find on a registry. -/
def findWatch : Watches → String → Option (List Nat)
  | [], _ => none
  | (k, l) :: rest, key => if k = key then some l else findWatch rest key

/-- map::erase of the found entry. -/
def eraseWatch : Watches → String → Watches
  | [], _ => []
  | (k, l) :: rest, key => if k = key then rest else (k, l) :: eraseWatch rest key

/-- Observable callback events of a session, in order of occurrence.
`fired` is a watch callback invoked with a mutation watch response,
`expired` a watch callback invoked with the session-expired synthetic
response, `callback` a completion callback invoked with a response of
the given error; `erasedKey` marks the erasure of a registry entry
(the flag tells the registry: true for the child/list registry). -/
inductive WEvent
  | fired (i : Nat) (path : String)
  | expired (i : Nat)
  | callback (i : Nat) (e : KError)
  | erasedKey (isList : Bool) (key : String)
  deriving DecidableEq

/-- processWatchesImpl of TestKeeper.cpp: invoke and drop every
callback registered under `path` in the data registry and under
parentPath(path) in the child registry.  The event trace records the
code's order: the callbacks under a key are invoked first, then the
entry is erased. -/
def processWatchesImpl (path : String) (watches list_watches : Watches) :
    List WEvent × Watches × Watches :=
  let step1 :=
    match findWatch watches path with
    | some cbs =>
      (cbs.map (fun i => WEvent.fired i path) ++ [WEvent.erasedKey false path],
       eraseWatch watches path)
    | none => ([], watches)
  let parent := parentPath path
  let step2 :=
    match findWatch list_watches parent with
    | some cbs =>
      (cbs.map (fun i => WEvent.fired i parent) ++ [WEvent.erasedKey true parent],
       eraseWatch list_watches parent)
    | none => ([], list_watches)
  (step1.1 ++ step2.1, step1.2, step2.2)

/-- The path at which a sub-request of a multi fires watches: its
getPath() for the mutating kinds; TestKeeperCheckRequest does not
override processWatches and fires nothing. -/
def TKSubRequest.watchPath : TKSubRequest → Option String
  | .create p _ _ _ => some p
  | .remove p _ => some p
  | .set p _ _ => some p
  | .check _ _ => none

/-- TestKeeperMultiRequest::processWatches: each contained mutating
sub-request fires in order. -/
def fireMany : List String → Watches → Watches → List WEvent × Watches × Watches
  | [], w, lw => ([], w, lw)
  | p :: ps, w, lw =>
    let r1 := processWatchesImpl p w lw
    let r2 := fireMany ps r1.2.1 r1.2.2
    (r1.1 ++ r2.1, r2.2)

/-- The concrete request kinds a TestKeeper session processes (the
TestKeeperRequest hierarchy); a multi carries its already-converted
sub-requests. -/
inductive TKRequest
  | create (path data : String) (is_ephemeral is_sequential : Bool)
  | remove (path : String) (version : Int)
  | exists' (path : String)
  | get (path : String)
  | set (path data : String) (version : Int)
  | list (path : String)
  | check (path : String) (version : Int)
  | multi (subs : List TKSubRequest)
  deriving DecidableEq

/-- Request::getPath.  Modelled from the spec for the multi case, whose
getPath is not part of the given sources: a multi request has no single
path and yields the empty string. -/
def TKRequest.getPath : TKRequest → String
  | .create p _ _ _ => p
  | .remove p _ => p
  | .exists' p => p
  | .get p => p
  | .set p _ _ => p
  | .list p => p
  | .check p _ => p
  | .multi _ => ""

/-- The dynamic_cast<const ListRequest *> discrimination of the mutator
loop. -/
def TKRequest.isList : TKRequest → Bool
  | .list _ => true
  | _ => false

/-- Modelled from the spec: Request::addRootPath (declared outside the
given sources) prepends the session's root prefix to every path carried
by the request; for a multi it rewrites every sub-request path. -/
def TKSubRequest.addRoot (root : String) : TKSubRequest → TKSubRequest
  | .create p d e s => .create (root ++ p) d e s
  | .remove p v => .remove (root ++ p) v
  | .set p d v => .set (root ++ p) d v
  | .check p v => .check (root ++ p) v

/-- Modelled from the spec: addRootPath on a full request (see
`TKSubRequest.addRoot`). -/
def TKRequest.addRoot (root : String) : TKRequest → TKRequest
  | .create p d e s => .create (root ++ p) d e s
  | .remove p v => .remove (root ++ p) v
  | .exists' p => .exists' (root ++ p)
  | .get p => .get (root ++ p)
  | .set p d v => .set (root ++ p) d v
  | .list p => .list (root ++ p)
  | .check p v => .check (root ++ p) v
  | .multi subs => .multi (subs.map (TKSubRequest.addRoot root))

/-- Request::process dispatch; `none` renders a throw out of process. -/
def tkProcess : TKRequest → Container → Int → Int → Option Response × Container
  | .create p d e s, c, zxid, now =>
    let r := createProcess p d e s c zxid now
    (some r.1, r.2)
  | .remove p v, c, _, _ => removeProcess p v c
  | .exists' p, c, _, _ => (some (existsProcess p c), c)
  | .get p, c, _, _ => (some (getProcess p c), c)
  | .set p d v, c, zxid, now => setProcess p d v c zxid now
  | .list p, c, _, _ => (listProcess p c, c)
  | .check p v, c, _, _ => (some (checkProcess p v c), c)
  | .multi subs, c, zxid, now => multiProcess subs c zxid now

/-- Request::processWatches dispatch: the mutating kinds fire at their
getPath(); a multi fires for each mutating sub-request in order; the
read kinds and Check fire nothing. -/
def tkProcessWatches : TKRequest → Watches → Watches →
    List WEvent × Watches × Watches
  | .create p _ _ _, w, lw => processWatchesImpl p w lw
  | .remove p _, w, lw => processWatchesImpl p w lw
  | .set p _ _, w, lw => processWatchesImpl p w lw
  | .multi subs, w, lw => fireMany (subs.filterMap TKSubRequest.watchPath) w lw
  | _, w, lw => ([], w, lw)

/-- A request envelope (RequestInfo): the request, whether a watch
callback is attached, and the id under which its callbacks appear in
the event trace. -/
structure Envelope where
  id : Nat
  request : TKRequest
  has_watch : Bool
  deriving DecidableEq

/-- The state owned by the mutator thread. -/
structure SState where
  container : Container
  watches : Watches
  list_watches : Watches
  zxid : Int
  deriving DecidableEq

/-- The watch-registration step of the mutator loop: with a watch
attached, register it in the child registry for a List request and in
the data registry otherwise, keyed by the request's path as the
envelope carries it. -/
def registerWatch (w lw : Watches) (env : Envelope) : Watches × Watches :=
  if env.has_watch then
    if env.request.isList then (w, addWatch lw env.request.getPath env.id)
    else (addWatch w env.request.getPath env.id, lw)
  else (w, lw)

/-- One iteration of TestKeeper::processingThread on a dequeued
envelope: register the watch, advance zxid, prepend the root path,
process, fire watches on ZOK, invoke the completion callback.  The
Bool is true when process threw (the loop then falls to finalize);
then no callback is invoked. -/
def stepRequest (root : String) (now : Int) (st : SState) (env : Envelope) :
    SState × List WEvent × Bool :=
  match tkProcess (env.request.addRoot root) st.container (st.zxid + 1) now with
  | (none, c') =>
    ({ container := c',
       watches := (registerWatch st.watches st.list_watches env).1,
       list_watches := (registerWatch st.watches st.list_watches env).2,
       zxid := st.zxid + 1 }, [], true)
  | (some resp, c') =>
    if resp.error = KError.ZOK then
      ({ container := c',
         watches := (tkProcessWatches (env.request.addRoot root)
           (registerWatch st.watches st.list_watches env).1
           (registerWatch st.watches st.list_watches env).2).2.1,
         list_watches := (tkProcessWatches (env.request.addRoot root)
           (registerWatch st.watches st.list_watches env).1
           (registerWatch st.watches st.list_watches env).2).2.2,
         zxid := st.zxid + 1 },
       (tkProcessWatches (env.request.addRoot root)
           (registerWatch st.watches st.list_watches env).1
           (registerWatch st.watches st.list_watches env).2).1
         ++ [WEvent.callback env.id resp.error], false)
    else
      ({ container := c',
         watches := (registerWatch st.watches st.list_watches env).1,
         list_watches := (registerWatch st.watches st.list_watches env).2,
         zxid := st.zxid + 1 },
       [WEvent.callback env.id resp.error], false)

/-- The mutator loop over the queued envelopes; stops at a throw,
returning the un-dequeued remainder of the queue. -/
def runGo (root : String) (now : Int) :
    List Envelope → SState → SState × List WEvent × List Envelope
  | [], st => (st, [], [])
  | env :: rest, st =>
    match stepRequest root now st env with
    | (st1, evs, true) => (st1, evs, rest)
    | (st1, evs, false) =>
      ((runGo root now rest st1).1, evs ++ (runGo root now rest st1).2.1,
        (runGo root now rest st1).2.2)

/-- The finalize walk over the data-watch registry: deliver the
session-expired synthetic response to every registered callback.  The
child/list registry is not walked. -/
def expireWatchEvents : Watches → List WEvent
  | [] => []
  | (_, cbs) :: rest => cbs.map WEvent.expired ++ expireWatchEvents rest

/-- The finalize drain of the request queue: each envelope's completion
callback receives a synthesized response with ZSESSIONEXPIRED, and its
watch, when attached, receives the session-expired response. -/
def drainEvents : List Envelope → List WEvent
  | [] => []
  | env :: rest =>
    WEvent.callback env.id KError.ZSESSIONEXPIRED ::
      ((if env.has_watch then [WEvent.expired env.id] else []) ++ drainEvents rest)

/-- The initial mutator state: the container seeded with "/" (a
default-constructed node, modelled from the spec as the zero stat),
empty registries, zxid 0. -/
def initNode : Node :=
  { data := "", is_ephemeral := false, is_sequental := false, seq_num := 0,
    stat := statZero }

/-- The seeded initial state of a session. -/
def initState : SState :=
  { container := [("/", initNode)], watches := [], list_watches := [], zxid := 0 }

/-- A whole session: the mutator loop over the submitted envelopes,
then finalize (walk the data-watch registry, then drain whatever the
loop left in the queue).  Returns the final mutator state and the full
event trace. -/
def runSession (root : String) (now : Int) (reqs : List Envelope) :
    SState × List WEvent :=
  ((runGo root now reqs initState).1,
   (runGo root now reqs initState).2.1
     ++ expireWatchEvents (runGo root now reqs initState).1.watches
     ++ drainEvents (runGo root now reqs initState).2.2)

/-- Whether an event is an invocation of envelope `i`'s watch callback
(either a mutation firing or a session-expired delivery). -/
def isWatchInvocation (i : Nat) : WEvent → Bool
  | .fired j _ => j == i
  | .expired j => j == i
  | _ => false

/-- How many times envelope `i`'s watch callback is invoked in a
trace. -/
def wcount (evs : List WEvent) (i : Nat) : Nat :=
  (evs.filter (isWatchInvocation i)).length

/-- Total number of registrations of callback `i` across a registry. -/
def wreg : Watches → Nat → Nat
  | [], _ => 0
  | (_, cbs) :: rest, i => cbs.count i + wreg rest i

/-- Number of watch-carrying envelopes with id `i` in a queue. -/
def occCount (l : List Envelope) (i : Nat) : Nat :=
  (l.filter fun e => e.id == i && e.has_watch).length

/-- The session-side state shared with submitters: the expired flag,
the bounded request queue (with its capacity), and the registries the
finalize path walks or clears. -/
structure KState where
  expired : Bool
  capacity : Nat
  watches : Watches
  list_watches : Watches
  queue : List Envelope
  deriving DecidableEq

/-- TestKeeper::finalize: a no-op when already expired; otherwise set
the expired flag, deliver session-expired to every data-watch callback
and clear that registry (the child/list registry is left as is), then
drain the queue. -/
def finalizeSession (st : KState) : KState × List WEvent :=
  if st.expired then (st, [])
  else
    ({ st with expired := true, watches := [], queue := [] },
     expireWatchEvents st.watches ++ drainEvents st.queue)

/-- Result of TestKeeper::pushRequest as seen by the submitter. -/
inductive PushResult
  | ok
  | failed (e : KError)
  deriving DecidableEq

/-- TestKeeper::pushRequest: under the push mutex, an expired session
rejects with ZSESSIONEXPIRED before touching the queue; a full queue is
the enqueue timeout, rejecting with ZOPERATIONTIMEOUT (the timed
tryPush of the source is modelled by its observable outcome).  Every
throw is caught, finalize runs, and the error is rethrown. -/
def pushRequest (st : KState) (env : Envelope) :
    PushResult × KState × List WEvent :=
  if st.expired then
    let f := finalizeSession st
    (.failed KError.ZSESSIONEXPIRED, f.1, f.2)
  else if st.capacity ≤ st.queue.length then
    let f := finalizeSession st
    (.failed KError.ZOPERATIONTIMEOUT, f.1, f.2)
  else
    (.ok, { st with queue := st.queue ++ [env] }, [])

/-! Helper lemmas about the queue drain and the multi loop. -/

theorem drainEvents_mem (l : List Envelope) (e : Envelope) (he : e ∈ l) :
    WEvent.callback e.id KError.ZSESSIONEXPIRED ∈ drainEvents l ∧
      (e.has_watch = true → WEvent.expired e.id ∈ drainEvents l) := by
  induction l with
  | nil => cases he
  | cons x rest ih =>
    rcases List.mem_cons.mp he with h | h
    · subst h
      constructor
      · exact List.mem_cons_self _ _
      · intro hw
        simp [drainEvents, hw]
    · have := ih h
      constructor
      · exact List.mem_cons_of_mem _ (List.mem_append_right _ this.1)
      · intro hw
        exact List.mem_cons_of_mem _ (List.mem_append_right _ (this.2 hw))

theorem multiGo_fail (zxid now : Int) :
    ∀ (subs : List TKSubRequest) (c : Container) (acc resps : List Response)
      (e : KError) (c' : Container),
      multiGo zxid now subs c acc = (some (resps, e), c') → e ≠ KError.ZOK →
      ∃ pre last, resps = acc ++ (pre ++ [last]) ∧ last.error = e ∧
        (∀ r ∈ pre, r.error = KError.ZOK) ∧ pre.length + 1 ≤ subs.length := by
  intro subs
  induction subs with
  | nil =>
    intro c acc resps e c' h hne
    simp only [multiGo] at h
    injection h with h1 h2
    injection h1 with h3
    injection h3 with h4 h5
    exact absurd h5.symm hne
  | cons r rest ih =>
    intro c acc resps e c' h hne
    unfold multiGo at h
    split at h
    · simp at h
    · rename_i resp c2 heq
      by_cases hr : resp.error = KError.ZOK
      · rw [if_neg (by simp [hr])] at h
        obtain ⟨pre, last, hres, hlast, hpre, hlen⟩ :=
          ih c2 (acc ++ [resp]) resps e c' h hne
        refine ⟨resp :: pre, last, ?_, hlast, ?_, ?_⟩
        · simpa using hres
        · intro x hx
          rcases List.mem_cons.mp hx with hx | hx
          · subst hx; exact hr
          · exact hpre x hx
        · simpa using Nat.succ_le_succ hlen
      · rw [if_pos hr] at h
        injection h with h1 h2
        injection h1 with h3
        injection h3 with h4 h5
        subst h4 h5
        refine ⟨[], resp, by simp, rfl, by simp, by simp⟩

/-- Number of occurrences of callback `i` under an optional registry
entry. -/
def cntOpt (o : Option (List Nat)) (i : Nat) : Nat := (o.getD []).count i

/-- The removed-before-invocation ordering on a delivery trace: every
fired event must be preceded by the erasure of its key. -/
def rbiGo : List String → List WEvent → Bool
  | _, [] => true
  | seen, WEvent.fired _ k :: rest => seen.contains k && rbiGo seen rest
  | seen, WEvent.erasedKey _ k :: rest => rbiGo (k :: seen) rest
  | seen, _ :: rest => rbiGo seen rest

/-- Whether, in a trace, each callback's registry entry is erased
before the callback is invoked. -/
def removedBeforeInvoked (evs : List WEvent) : Bool := rbiGo [] evs

theorem findWatch_none_of_not_mem (w : Watches) (key : String)
    (h : key ∉ w.map Prod.fst) : findWatch w key = none := by
  induction w with
  | nil => rfl
  | cons e rest ih =>
    obtain ⟨k, l⟩ := e
    have hk : k ≠ key := by
      intro hk
      exact h (by simp [hk])
    simp only [findWatch, if_neg hk]
    exact ih (fun hm => h (List.mem_cons_of_mem _ hm))

theorem findWatch_eraseWatch_self (w : Watches) (key : String)
    (h : (w.map Prod.fst).Nodup) : findWatch (eraseWatch w key) key = none := by
  induction w with
  | nil => rfl
  | cons e rest ih =>
    obtain ⟨k, l⟩ := e
    by_cases hk : k = key
    · subst hk
      simp only [eraseWatch, if_pos rfl]
      have : k ∉ rest.map Prod.fst := (List.nodup_cons.mp h).1
      exact findWatch_none_of_not_mem rest k this
    · simp only [eraseWatch, if_neg hk, findWatch, if_neg hk]
      exact ih (List.nodup_cons.mp h).2

theorem findWatch_eraseWatch_ne (w : Watches) (key q : String)
    (h : q ≠ key) : findWatch (eraseWatch w key) q = findWatch w q := by
  induction w with
  | nil => rfl
  | cons e rest ih =>
    obtain ⟨k, l⟩ := e
    by_cases hk : k = key
    · subst hk
      simp [eraseWatch, findWatch, Ne.symm h]
    · by_cases hq : k = q
      · subst hq
        simp [eraseWatch, findWatch, hk]
      · simp [eraseWatch, findWatch, hk, hq]
        exact ih

theorem wcount_append (a b : List WEvent) (i : Nat) :
    wcount (a ++ b) i = wcount a i + wcount b i := by
  simp [wcount, List.filter_append]

theorem wcount_fired_map (cbs : List Nat) (p : String) (i : Nat) :
    wcount (cbs.map fun c => WEvent.fired c p) i = cbs.count i := by
  induction cbs with
  | nil => rfl
  | cons c rest ih =>
    by_cases hc : c == i
    · simp [wcount, isWatchInvocation, hc, List.count_cons] at ih ⊢
      omega
    · simp [wcount, isWatchInvocation, hc, List.count_cons] at ih ⊢
      omega

theorem wcount_expired_map (cbs : List Nat) (i : Nat) :
    wcount (cbs.map WEvent.expired) i = cbs.count i := by
  induction cbs with
  | nil => rfl
  | cons c rest ih =>
    by_cases hc : c == i
    · simp [wcount, isWatchInvocation, hc, List.count_cons] at ih ⊢
      omega
    · simp [wcount, isWatchInvocation, hc, List.count_cons] at ih ⊢
      omega

theorem wcount_erasedKey (b : Bool) (k : String) (i : Nat) :
    wcount [WEvent.erasedKey b k] i = 0 := rfl

theorem wcount_nil (i : Nat) : wcount [] i = 0 := rfl

theorem wcount_cons_erased (b : Bool) (k : String) (evs : List WEvent) (i : Nat) :
    wcount (WEvent.erasedKey b k :: evs) i = wcount evs i := by
  simp [wcount, List.filter_cons, isWatchInvocation]

theorem wcount_cons_callback (j : Nat) (e : KError) (evs : List WEvent) (i : Nat) :
    wcount (WEvent.callback j e :: evs) i = wcount evs i := by
  simp [wcount, List.filter_cons, isWatchInvocation]

/-- Claim C3 (amended): after a successful mutation at `p`, watch
delivery invokes every callback registered under `p` in the data
registry and under parentPath(p) in the child registry exactly as many
times as it is registered there (once each for distinct callbacks),
removes both registry entries in the same delivery step, and leaves
every other entry untouched — so no later mutation can re-deliver a
fired callback.  (The erasure happens immediately after the
invocations, not before them; see the counterexample.) -/
theorem watchDelivery (p : String) (w lw : Watches)
    (hw : (w.map Prod.fst).Nodup) (hlw : (lw.map Prod.fst).Nodup) :
    (∀ i, wcount (processWatchesImpl p w lw).1 i =
        cntOpt (findWatch w p) i + cntOpt (findWatch lw (parentPath p)) i) ∧
    findWatch (processWatchesImpl p w lw).2.1 p = none ∧
    findWatch (processWatchesImpl p w lw).2.2 (parentPath p) = none ∧
    (∀ q, q ≠ p → findWatch (processWatchesImpl p w lw).2.1 q = findWatch w q) ∧
    (∀ q, q ≠ parentPath p →
      findWatch (processWatchesImpl p w lw).2.2 q = findWatch lw q) := by
  cases hf1 : findWatch w p with
  | none =>
    cases hf2 : findWatch lw (parentPath p) with
    | none =>
      refine ⟨?_, ?_, ?_, ?_, ?_⟩
      · intro i
        simp [processWatchesImpl, hf1, hf2, cntOpt, wcount_nil]
      · simpa [processWatchesImpl, hf1, hf2] using hf1
      · simpa [processWatchesImpl, hf1, hf2] using hf2
      · intro q hq
        simp [processWatchesImpl, hf1, hf2]
      · intro q hq
        simp [processWatchesImpl, hf1, hf2]
    | some cbs2 =>
      refine ⟨?_, ?_, ?_, ?_, ?_⟩
      · intro i
        simp only [processWatchesImpl, hf1, hf2]
        simp [cntOpt, wcount_append, wcount_fired_map, wcount_erasedKey,
          wcount_nil, wcount_cons_erased]
      · simpa [processWatchesImpl, hf1, hf2] using hf1
      · simp only [processWatchesImpl, hf1, hf2]
        exact findWatch_eraseWatch_self lw (parentPath p) hlw
      · intro q hq
        simp [processWatchesImpl, hf1, hf2]
      · intro q hq
        simp only [processWatchesImpl, hf1, hf2]
        exact findWatch_eraseWatch_ne lw (parentPath p) q hq
  | some cbs1 =>
    cases hf2 : findWatch lw (parentPath p) with
    | none =>
      refine ⟨?_, ?_, ?_, ?_, ?_⟩
      · intro i
        simp only [processWatchesImpl, hf1, hf2]
        simp [cntOpt, wcount_append, wcount_fired_map, wcount_erasedKey,
          wcount_nil, wcount_cons_erased]
      · simp only [processWatchesImpl, hf1, hf2]
        exact findWatch_eraseWatch_self w p hw
      · simpa [processWatchesImpl, hf1, hf2] using hf2
      · intro q hq
        simp only [processWatchesImpl, hf1, hf2]
        exact findWatch_eraseWatch_ne w p q hq
      · intro q hq
        simp [processWatchesImpl, hf1, hf2]
    | some cbs2 =>
      refine ⟨?_, ?_, ?_, ?_, ?_⟩
      · intro i
        simp only [processWatchesImpl, hf1, hf2]
        simp [cntOpt, wcount_append, wcount_fired_map, wcount_erasedKey,
          wcount_nil, wcount_cons_erased]
      · simp only [processWatchesImpl, hf1, hf2]
        exact findWatch_eraseWatch_self w p hw
      · simp only [processWatchesImpl, hf1, hf2]
        exact findWatch_eraseWatch_self lw (parentPath p) hlw
      · intro q hq
        simp only [processWatchesImpl, hf1, hf2]
        exact findWatch_eraseWatch_ne w p q hq
      · intro q hq
        simp only [processWatchesImpl, hf1, hf2]
        exact findWatch_eraseWatch_ne lw (parentPath p) q hq

/-- Claim C3 witness: delivery at "/a/b" with a data watch under
"/a/b" and a child watch under "/a" invokes each exactly once and
removes both entries. -/
theorem watchDelivery_witness :
    wcount (processWatchesImpl "/a/b" [("/a/b", [1])] [("/a", [2])]).1 1 = 1 ∧
    wcount (processWatchesImpl "/a/b" [("/a/b", [1])] [("/a", [2])]).1 2 = 1 ∧
    findWatch (processWatchesImpl "/a/b" [("/a/b", [1])] [("/a", [2])]).2.1
      "/a/b" = none ∧
    findWatch (processWatchesImpl "/a/b" [("/a/b", [1])] [("/a", [2])]).2.2
      "/a" = none := by
  have h := watchDelivery "/a/b" [("/a/b", [1])] [("/a", [2])]
    (by decide) (by decide)
  exact ⟨h.1 1, h.1 2, h.2.1, h.2.2.1⟩

/-- Claim C3 counterexample: in the delivery trace the callback is
invoked first and its registry entry is erased afterwards, so the
callback is not removed from the registry before it is invoked. -/
theorem watchErasedAfterInvocation :
    (processWatchesImpl "/a" [("/a", [0])] []).1
      = [WEvent.fired 0 "/a", WEvent.erasedKey false "/a"] ∧
    removedBeforeInvoked (processWatchesImpl "/a" [("/a", [0])] []).1 = false := by
  exact ⟨rfl, rfl⟩

/-- Claim C1: when the sequential application inside a multi hits a
sub-response with a non-ZOK error, the container is restored to its
exact pre-call state, the MultiResponse carries the responses collected
so far — ending with the failing one, whose error is echoed at the top
level, all earlier ones ZOK — and the remaining sub-operations are
absent (the response list is no longer than the request list); a throw
from a sub-request likewise restores the container before
propagating. -/
theorem multiAborts (subs : List TKSubRequest) (c : Container) (zxid now : Int) :
    ((multiProcess subs c zxid now).1 = none →
      (multiProcess subs c zxid now).2 = c) ∧
    (∀ resps e, (multiProcess subs c zxid now).1 = some (.multi resps e) →
      e ≠ KError.ZOK →
      (multiProcess subs c zxid now).2 = c ∧
      ∃ pre last, resps = pre ++ [last] ∧ last.error = e ∧
        (∀ r ∈ pre, r.error = KError.ZOK) ∧ pre.length + 1 ≤ subs.length) := by
  cases hm : multiGo zxid now subs c [] with
  | mk o c1 =>
    cases o with
    | none =>
      have hmp : multiProcess subs c zxid now = (none, c) := by
        unfold multiProcess
        rw [hm]
      rw [hmp]
      exact ⟨fun _ => rfl, fun resps e hsome _ => by simp at hsome⟩
    | some pe =>
      obtain ⟨resps0, e0⟩ := pe
      by_cases he : e0 = KError.ZOK
      · have hmp : multiProcess subs c zxid now =
            (some (.multi resps0 e0), c1) := by
          unfold multiProcess
          rw [hm]
          simp [he]
        rw [hmp]
        refine ⟨fun hnone => by simp at hnone, ?_⟩
        intro resps e hsome hne
        replace hsome : Response.multi resps0 e0 = Response.multi resps e := by
          simpa using hsome
        injection hsome with h1 h2
        subst h2
        exact absurd he.symm (Ne.symm hne)
      · have hmp : multiProcess subs c zxid now =
            (some (.multi resps0 e0), c) := by
          unfold multiProcess
          rw [hm]
          simp [he]
        rw [hmp]
        refine ⟨fun hnone => by simp at hnone, ?_⟩
        intro resps e hsome hne
        replace hsome : Response.multi resps0 e0 = Response.multi resps e := by
          simpa using hsome
        injection hsome with h1 h2
        subst h1
        subst h2
        refine ⟨rfl, ?_⟩
        obtain ⟨pre, last, hres, hlast, hpre, hlen⟩ :=
          multiGo_fail zxid now subs c [] resps0 e0 c1 hm he
        exact ⟨pre, last, by simpa using hres, hlast, hpre, hlen⟩

/-- Claim C1 witness: the multi [create "/a", create "/a"] fails on its
second sub-request with ZNODEEXISTS, restores the container, and
returns both collected responses with the error echoed at top level. -/
theorem multiAborts_witness :
    (multiProcess [TKSubRequest.create "/a" "" false false,
        TKSubRequest.create "/a" "" false false] [("/", initNode)] 1 0).2
      = [("/", initNode)] ∧
    ∃ pre last,
      ([Response.create "/a" KError.ZOK, Response.create "" KError.ZNODEEXISTS]
          : List Response) = pre ++ [last] ∧
        last.error = KError.ZNODEEXISTS ∧
        (∀ r ∈ pre, r.error = KError.ZOK) ∧ pre.length + 1 ≤ 2 := by
  exact (multiAborts [TKSubRequest.create "/a" "" false false,
      TKSubRequest.create "/a" "" false false] [("/", initNode)] 1 0).2
    [Response.create "/a" KError.ZOK, Response.create "" KError.ZNODEEXISTS]
    KError.ZNODEEXISTS (by rfl) (by decide)

theorem strLength_append (a b : String) : (a ++ b).length = a.length + b.length := by
  cases a with
  | mk la =>
    cases b with
    | mk lb => exact List.length_append la lb

theorem append_left_empty (root p : String) : root ++ p = p ↔ root = "" := by
  constructor
  · intro h
    have hl := congrArg String.length h
    rw [strLength_append] at hl
    have hlen : root.length = 0 := by omega
    cases root with
    | mk l =>
      cases l with
      | nil => rfl
      | cons c cs => simp [String.length] at hlen
  · intro h
    subst h
    rfl

/-- Claim C5 (amended): the mutator loop registers an attached watch in
the child registry for a List request and in the data registry
otherwise, keyed by the request's path as submitted — before
root_prefix is prepended.  Watch delivery after a later mutation looks
the callback up under the root-prefixed path, so the registered key
matches the delivery key exactly when the root prefix is empty. -/
theorem watchRegistrationKey (w lw : Watches) (env : Envelope)
    (hw : env.has_watch = true) :
    (env.request.isList = false →
        registerWatch w lw env = (addWatch w env.request.getPath env.id, lw)) ∧
    (env.request.isList = true →
        registerWatch w lw env = (w, addWatch lw env.request.getPath env.id)) ∧
    (∀ root now st p j,
        (stepRequest root now st ⟨j, TKRequest.get p, true⟩).1.watches
          = addWatch st.watches p j) ∧
    (∀ root p i, root ≠ "" →
        wcount (processWatchesImpl (root ++ p) (addWatch [] p i) []).1 i = 0) ∧
    (∀ p i, wcount (processWatchesImpl ("" ++ p) (addWatch [] p i) []).1 i = 1) := by
  refine ⟨?_, ?_, ?_, ?_, ?_⟩
  · intro hl
    simp [registerWatch, hw, hl]
  · intro hl
    simp [registerWatch, hw, hl]
  · intro root now st p j
    simp only [stepRequest, registerWatch, TKRequest.isList, TKRequest.getPath,
      TKRequest.addRoot, tkProcess, getProcess]
    cases hg : cFind st.container (root ++ p) with
    | none => simp [tkProcessWatches, hg, Response.error]
    | some nd => simp [tkProcessWatches, hg, Response.error]
  · intro root p i hroot
    have hne : p ≠ root ++ p := by
      intro h
      exact hroot ((append_left_empty root p).mp h.symm)
    have hfw : findWatch (addWatch [] p i) (root ++ p) = none := by
      simp [addWatch, findWatch, hne]
    simp only [processWatchesImpl, hfw]
    simp [findWatch, wcount_nil]
  · intro p i
    have h0 : "" ++ p = p := rfl
    rw [h0]
    have hfw : findWatch (addWatch [] p i) p = some [i] := by
      simp [addWatch, findWatch]
    simp only [processWatchesImpl, hfw]
    simp [findWatch, wcount, List.filter_cons, isWatchInvocation]

/-- Claim C5 witness: a Get watch on "/x" is registered in the data
registry under "/x", and a delivery at a prefixed path misses it. -/
theorem watchRegistrationKey_witness :
    registerWatch [] [] ⟨3, TKRequest.get "/x", true⟩ = (addWatch [] "/x" 3, []) ∧
      wcount (processWatchesImpl ("/c" ++ "/x") (addWatch [] "/x" 3) []).1 3 = 0 := by
  have h := watchRegistrationKey [] [] ⟨3, TKRequest.get "/x", true⟩ rfl
  exact ⟨h.1 rfl, h.2.2.2.1 "/c" "/x" 3 (by decide)⟩

/-- Claim C5 counterexample: with root prefix "/r", a Get on "/a" with
a watch is registered under the submitted path "/a", not under the
root-prefixed path "/r/a" at which a later mutation's delivery would
look it up. -/
theorem watchRegisteredUnprefixed :
    findWatch (stepRequest "/r" 0 initState
        ⟨0, TKRequest.get "/a", true⟩).1.watches "/a" = some [0] ∧
      findWatch (stepRequest "/r" 0 initState
        ⟨0, TKRequest.get "/a", true⟩).1.watches ("/r" ++ "/a") = none := by
  exact ⟨rfl, rfl⟩

theorem cFind_cUpdate (c : Container) (p q : String) (f : Node → Node) :
    cFind (cUpdate c p f) q = if q = p then (cFind c q).map f else cFind c q := by
  induction c with
  | nil => simp [cUpdate, cFind]
  | cons e rest ih =>
    obtain ⟨k, n⟩ := e
    by_cases hkp : k = p
    · subst hkp
      by_cases hkq : k = q
      · subst hkq
        simp [cUpdate, cFind]
      · simp [cUpdate, cFind, hkq, Ne.symm hkq, ih]
    · by_cases hkq : k = q
      · subst hkq
        have hqp : k ≠ p := hkp
        simp [cUpdate, cFind, hkp, hqp]
      · simp [cUpdate, cFind, hkp, hkq, Ne.symm hkq, ih]

theorem cFind_cInsert_ne {p q : String} (h : q ≠ p) (c : Container) (n : Node) :
    cFind (cInsert c p n) q = cFind c q := by
  induction c with
  | nil => simp [cInsert, cFind, h, Ne.symm h]
  | cons e rest ih =>
    obtain ⟨k, m⟩ := e
    by_cases hpk : p = k
    · subst hpk
      simp [cInsert]
    · by_cases hlt : strLt p k
      · simp [cInsert, hpk, hlt, cFind, h, Ne.symm h]
      · by_cases hkq : k = q
        · subst hkq
          simp [cInsert, hpk, hlt, cFind]
        · simp [cInsert, hpk, hlt, cFind, hkq]
          exact ih

theorem lastSlashPos_lt_length (l : List Char) (i : Nat)
    (h : lastSlashPos l = some i) : i < l.length := by
  induction l generalizing i with
  | nil => cases h
  | cons c rest ih =>
    simp only [lastSlashPos] at h
    cases hr : lastSlashPos rest with
    | some j =>
      rw [hr] at h
      injection h with h1
      subst h1
      exact Nat.succ_lt_succ (ih j hr)
    | none =>
      rw [hr] at h
      by_cases hc : c = '/'
      · rw [if_pos hc] at h
        injection h with h1
        subst h1
        exact Nat.succ_pos _
      · rw [if_neg hc] at h
        cases h

theorem parentPath_length_le (p : String) : (parentPath p).length ≤ p.length := by
  cases h : lastSlashPos p.data with
  | none => simp [parentPath, h]
  | some i =>
    have hi := lastSlashPos_lt_length p.data i h
    by_cases h0 : 0 < i
    · have hpp : parentPath p = String.mk (p.data.take i) := by
        simp [parentPath, h, h0]
      rw [hpp]
      show (p.data.take i).length ≤ p.length
      have ht : (p.data.take i).length = min i p.data.length :=
        List.length_take i p.data
      have hlen : p.length = p.data.length := rfl
      omega
    · have hpp : parentPath p = "/" := by simp [parentPath, h, h0]
      rw [hpp]
      show 1 ≤ p.length
      have hlen : p.length = p.data.length := rfl
      omega

theorem pad10_length_pos (n : Nat) : 0 < (pad10 n).length := by
  show 0 < (List.replicate (10 - (Nat.toDigits 10 n).length) '0'
    ++ Nat.toDigits 10 n).length
  rw [List.length_append, List.length_replicate]
  omega

/-- Claim C6: a successful sequential Create returns, as the committed
path, the requested path with the 10-digit zero-padded decimal of the
parent's prior seq_num appended, and increments the parent's seq_num by
one. -/
theorem createSequentialPath (path data : String) (eph : Bool) (c : Container)
    (zxid now : Int) (par : Node)
    (h1 : cFind c path = none)
    (h2 : cFind c (parentPath path) = some par)
    (h3 : par.is_ephemeral = false) :
    (createProcess path data eph true c zxid now).1
        = .create (path ++ pad10 par.seq_num) KError.ZOK ∧
    (cFind (createProcess path data eph true c zxid now).2 (parentPath path)).map
        Node.seq_num = some (par.seq_num + 1) := by
  have hpp : parentPath path ≠ path := by
    intro h
    rw [h, h1] at h2
    cases h2
  have hpc : parentPath path ≠ path ++ pad10 par.seq_num := by
    intro h
    have hl := congrArg String.length h
    rw [strLength_append] at hl
    have l1 : (parentPath path).length ≤ path.length := parentPath_length_le path
    have l3 : 0 < (pad10 par.seq_num).length := pad10_length_pos _
    omega
  constructor
  · simp [createProcess, h1, h2, h3]
  · simp [createProcess, h1, h2, h3, cFind_cUpdate, cFind_cInsert_ne hpc]

/-- Three consecutive sequential creates of "/seq/n-" under a fresh
parent: the first stage container. -/
def seqStage0 : Container :=
  (createProcess "/seq" "" false false [("/", initNode)] 1 0).2

/-- Second stage. -/
def seqStage1 : Container := (createProcess "/seq/n-" "" false true seqStage0 2 0).2

/-- Third stage. -/
def seqStage2 : Container := (createProcess "/seq/n-" "" false true seqStage1 3 0).2

/-- Final stage. -/
def seqStage3 : Container := (createProcess "/seq/n-" "" false true seqStage2 4 0).2

/-- Claim C6 witness: the three consecutive sequential creates of
"/seq/n-" under a fresh parent commit "/seq/n-0000000000",
"/seq/n-0000000001", "/seq/n-0000000002" and leave the parent's
seq_num at 3. -/
theorem createSequentialPath_witness :
    (createProcess "/seq/n-" "" false true seqStage0 2 0).1
      = .create "/seq/n-0000000000" KError.ZOK ∧
    (createProcess "/seq/n-" "" false true seqStage1 3 0).1
      = .create "/seq/n-0000000001" KError.ZOK ∧
    (createProcess "/seq/n-" "" false true seqStage2 4 0).1
      = .create "/seq/n-0000000002" KError.ZOK ∧
    (cFind seqStage3 "/seq").map Node.seq_num = some 3 := by
  refine ⟨?_, ?_, ?_, by rfl⟩
  · exact (createSequentialPath "/seq/n-" "" false seqStage0 2 0 _ rfl rfl rfl).1
  · exact (createSequentialPath "/seq/n-" "" false seqStage1 3 0 _ rfl rfl rfl).1
  · exact (createSequentialPath "/seq/n-" "" false seqStage2 4 0 _ rfl rfl rfl).1

theorem wreg_addWatch (w : Watches) (k : String) (j i : Nat) :
    wreg (addWatch w k j) i = wreg w i + (if j = i then 1 else 0) := by
  induction w with
  | nil =>
    by_cases hj : j = i
    · simp [addWatch, wreg, hj]
    · simp [addWatch, wreg, hj, List.count_singleton']
  | cons e rest ih =>
    obtain ⟨k0, l⟩ := e
    by_cases hk : k0 = k
    · subst hk
      by_cases hj : j = i
      · simp [addWatch, wreg, hj, List.count_append, List.count_singleton']
        omega
      · simp [addWatch, wreg, hj, List.count_append, List.count_singleton']
    · simp only [addWatch, if_neg hk, wreg]
      rw [ih]
      omega

theorem wreg_erase_of_find (w : Watches) (key : String) (cbs : List Nat) (i : Nat)
    (h : findWatch w key = some cbs) :
    wreg w i = wreg (eraseWatch w key) i + cbs.count i := by
  induction w with
  | nil => cases h
  | cons e rest ih =>
    obtain ⟨k, l⟩ := e
    by_cases hk : k = key
    · subst hk
      rw [findWatch, if_pos rfl] at h
      injection h with h1
      subst h1
      simp [eraseWatch, wreg]
      omega
    · rw [findWatch, if_neg hk] at h
      simp only [eraseWatch, if_neg hk, wreg]
      rw [ih h]
      omega

theorem pwi_wreg (p : String) (w lw : Watches) (i : Nat) :
    ∃ a b, wcount (processWatchesImpl p w lw).1 i = a + b ∧
      wreg w i = wreg (processWatchesImpl p w lw).2.1 i + a ∧
      wreg lw i = wreg (processWatchesImpl p w lw).2.2 i + b := by
  cases hf1 : findWatch w p with
  | none =>
    cases hf2 : findWatch lw (parentPath p) with
    | none =>
      refine ⟨0, 0, ?_, ?_, ?_⟩ <;>
        simp [processWatchesImpl, hf1, hf2, wcount_nil]
    | some cbs2 =>
      refine ⟨0, cbs2.count i, ?_, ?_, ?_⟩
      · simp only [processWatchesImpl, hf1, hf2]
        simp [wcount_append, wcount_fired_map, wcount_erasedKey, wcount_nil]
      · simp [processWatchesImpl, hf1, hf2]
      · simp only [processWatchesImpl, hf1, hf2]
        exact wreg_erase_of_find lw (parentPath p) cbs2 i hf2
  | some cbs1 =>
    cases hf2 : findWatch lw (parentPath p) with
    | none =>
      refine ⟨cbs1.count i, 0, ?_, ?_, ?_⟩
      · simp only [processWatchesImpl, hf1, hf2]
        simp [wcount_append, wcount_fired_map, wcount_erasedKey, wcount_nil]
      · simp only [processWatchesImpl, hf1, hf2]
        exact wreg_erase_of_find w p cbs1 i hf1
      · simp [processWatchesImpl, hf1, hf2]
    | some cbs2 =>
      refine ⟨cbs1.count i, cbs2.count i, ?_, ?_, ?_⟩
      · simp only [processWatchesImpl, hf1, hf2]
        simp [wcount_append, wcount_fired_map, wcount_erasedKey, wcount_nil,
          wcount_cons_erased]
      · simp only [processWatchesImpl, hf1, hf2]
        exact wreg_erase_of_find w p cbs1 i hf1
      · simp only [processWatchesImpl, hf1, hf2]
        exact wreg_erase_of_find lw (parentPath p) cbs2 i hf2

theorem fireMany_wreg (ps : List String) (w lw : Watches) (i : Nat) :
    ∃ a b, wcount (fireMany ps w lw).1 i = a + b ∧
      wreg w i = wreg (fireMany ps w lw).2.1 i + a ∧
      wreg lw i = wreg (fireMany ps w lw).2.2 i + b := by
  induction ps generalizing w lw with
  | nil => exact ⟨0, 0, by simp [fireMany, wcount_nil], by simp [fireMany], by simp [fireMany]⟩
  | cons p ps ih =>
    obtain ⟨a1, b1, h1, h2, h3⟩ := pwi_wreg p w lw i
    obtain ⟨a2, b2, g1, g2, g3⟩ :=
      ih (processWatchesImpl p w lw).2.1 (processWatchesImpl p w lw).2.2
    refine ⟨a1 + a2, b1 + b2, ?_, ?_, ?_⟩
    · simp only [fireMany, wcount_append]
      omega
    · simp only [fireMany]
      omega
    · simp only [fireMany]
      omega

theorem tkpw_wreg (req : TKRequest) (w lw : Watches) (i : Nat) :
    ∃ a b, wcount (tkProcessWatches req w lw).1 i = a + b ∧
      wreg w i = wreg (tkProcessWatches req w lw).2.1 i + a ∧
      wreg lw i = wreg (tkProcessWatches req w lw).2.2 i + b := by
  cases req with
  | create p d e s => exact pwi_wreg p w lw i
  | remove p v => exact pwi_wreg p w lw i
  | set p d v => exact pwi_wreg p w lw i
  | multi subs => exact fireMany_wreg _ w lw i
  | exists' p => exact ⟨0, 0, by simp [tkProcessWatches, wcount_nil],
      by simp [tkProcessWatches], by simp [tkProcessWatches]⟩
  | get p => exact ⟨0, 0, by simp [tkProcessWatches, wcount_nil],
      by simp [tkProcessWatches], by simp [tkProcessWatches]⟩
  | list p => exact ⟨0, 0, by simp [tkProcessWatches, wcount_nil],
      by simp [tkProcessWatches], by simp [tkProcessWatches]⟩
  | check p v => exact ⟨0, 0, by simp [tkProcessWatches, wcount_nil],
      by simp [tkProcessWatches], by simp [tkProcessWatches]⟩

theorem register_wreg (w lw : Watches) (env : Envelope) (i : Nat) :
    wreg (registerWatch w lw env).1 i
        = wreg w i + (if env.id = i ∧ env.has_watch = true ∧
            env.request.isList = false then 1 else 0) ∧
      wreg (registerWatch w lw env).2 i
        = wreg lw i + (if env.id = i ∧ env.has_watch = true ∧
            env.request.isList = true then 1 else 0) := by
  cases hwb : env.has_watch with
  | false => simp [registerWatch, hwb]
  | true =>
    cases hlb : env.request.isList with
    | false =>
      constructor
      · simp [registerWatch, hwb, hlb, wreg_addWatch]
      · simp [registerWatch, hwb, hlb]
    | true =>
      constructor
      · simp [registerWatch, hwb, hlb]
      · simp [registerWatch, hwb, hlb, wreg_addWatch]

theorem stepRequest_eq_none (root : String) (now : Int) (st : SState)
    (env : Envelope) (c' : Container)
    (h : tkProcess (env.request.addRoot root) st.container (st.zxid + 1) now
      = (none, c')) :
    stepRequest root now st env =
      ({ container := c',
         watches := (registerWatch st.watches st.list_watches env).1,
         list_watches := (registerWatch st.watches st.list_watches env).2,
         zxid := st.zxid + 1 }, [], true) := by
  unfold stepRequest
  rw [h]

theorem stepRequest_eq_some_zok (root : String) (now : Int) (st : SState)
    (env : Envelope) (resp : Response) (c' : Container)
    (h : tkProcess (env.request.addRoot root) st.container (st.zxid + 1) now
      = (some resp, c'))
    (he : resp.error = KError.ZOK) :
    stepRequest root now st env =
      ({ container := c',
         watches := (tkProcessWatches (env.request.addRoot root)
           (registerWatch st.watches st.list_watches env).1
           (registerWatch st.watches st.list_watches env).2).2.1,
         list_watches := (tkProcessWatches (env.request.addRoot root)
           (registerWatch st.watches st.list_watches env).1
           (registerWatch st.watches st.list_watches env).2).2.2,
         zxid := st.zxid + 1 },
       (tkProcessWatches (env.request.addRoot root)
           (registerWatch st.watches st.list_watches env).1
           (registerWatch st.watches st.list_watches env).2).1
         ++ [WEvent.callback env.id resp.error], false) := by
  unfold stepRequest
  rw [h]
  simp [he]

theorem stepRequest_eq_some_err (root : String) (now : Int) (st : SState)
    (env : Envelope) (resp : Response) (c' : Container)
    (h : tkProcess (env.request.addRoot root) st.container (st.zxid + 1) now
      = (some resp, c'))
    (he : resp.error ≠ KError.ZOK) :
    stepRequest root now st env =
      ({ container := c',
         watches := (registerWatch st.watches st.list_watches env).1,
         list_watches := (registerWatch st.watches st.list_watches env).2,
         zxid := st.zxid + 1 },
       [WEvent.callback env.id resp.error], false) := by
  unfold stepRequest
  rw [h]
  simp [he]

theorem step_wreg_data (root : String) (now : Int) (st : SState)
    (env : Envelope) (i : Nat)
    (hL : wreg st.list_watches i = 0)
    (hroute : env.id = i → env.has_watch = true → env.request.isList = false) :
    wreg (stepRequest root now st env).1.watches i
        + wcount (stepRequest root now st env).2.1 i
      = wreg st.watches i + (if env.id = i ∧ env.has_watch = true then 1 else 0)
    ∧ wreg (stepRequest root now st env).1.list_watches i = 0 := by
  obtain ⟨hr1, hr2⟩ := register_wreg st.watches st.list_watches env i
  have hd1 : wreg (registerWatch st.watches st.list_watches env).1 i
      = wreg st.watches i
        + (if env.id = i ∧ env.has_watch = true then 1 else 0) := by
    rw [hr1]
    congr 1
    by_cases h1 : env.id = i
    · by_cases h2 : env.has_watch = true
      · simp [h1, h2, hroute h1 h2]
      · simp [h1, h2]
    · simp [h1]
  have hd2 : wreg (registerWatch st.watches st.list_watches env).2 i = 0 := by
    rw [hr2, hL]
    by_cases h1 : env.id = i
    · by_cases h2 : env.has_watch = true
      · simp [h1, h2, hroute h1 h2]
      · simp [h1, h2]
    · simp [h1]
  cases hp : tkProcess (env.request.addRoot root) st.container (st.zxid + 1) now with
  | mk o c' =>
    cases o with
    | none =>
      rw [stepRequest_eq_none root now st env c' hp]
      exact ⟨by simpa [wcount_nil] using hd1, hd2⟩
    | some resp =>
      by_cases he : resp.error = KError.ZOK
      · obtain ⟨a, b, hab, hwa, hwb⟩ := tkpw_wreg (env.request.addRoot root)
          (registerWatch st.watches st.list_watches env).1
          (registerWatch st.watches st.list_watches env).2 i
        rw [stepRequest_eq_some_zok root now st env resp c' hp he]
        dsimp only
        constructor
        · simp only [wcount_append, wcount_cons_callback, wcount_nil]
          omega
        · omega
      · rw [stepRequest_eq_some_err root now st env resp c' hp he]
        exact ⟨by simpa [wcount_cons_callback, wcount_nil] using hd1, hd2⟩

theorem step_wreg_list (root : String) (now : Int) (st : SState)
    (env : Envelope) (i : Nat)
    (hD : wreg st.watches i = 0)
    (hroute : env.id = i → env.has_watch = true → env.request.isList = true) :
    wreg (stepRequest root now st env).1.list_watches i
        + wcount (stepRequest root now st env).2.1 i
      = wreg st.list_watches i
        + (if env.id = i ∧ env.has_watch = true then 1 else 0)
    ∧ wreg (stepRequest root now st env).1.watches i = 0 := by
  obtain ⟨hr1, hr2⟩ := register_wreg st.watches st.list_watches env i
  have hd1 : wreg (registerWatch st.watches st.list_watches env).2 i
      = wreg st.list_watches i
        + (if env.id = i ∧ env.has_watch = true then 1 else 0) := by
    rw [hr2]
    congr 1
    by_cases h1 : env.id = i
    · by_cases h2 : env.has_watch = true
      · simp [h1, h2, hroute h1 h2]
      · simp [h1, h2]
    · simp [h1]
  have hd2 : wreg (registerWatch st.watches st.list_watches env).1 i = 0 := by
    rw [hr1, hD]
    by_cases h1 : env.id = i
    · by_cases h2 : env.has_watch = true
      · simp [h1, h2, hroute h1 h2]
      · simp [h1, h2]
    · simp [h1]
  cases hp : tkProcess (env.request.addRoot root) st.container (st.zxid + 1) now with
  | mk o c' =>
    cases o with
    | none =>
      rw [stepRequest_eq_none root now st env c' hp]
      exact ⟨by simpa [wcount_nil] using hd1, hd2⟩
    | some resp =>
      by_cases he : resp.error = KError.ZOK
      · obtain ⟨a, b, hab, hwa, hwb⟩ := tkpw_wreg (env.request.addRoot root)
          (registerWatch st.watches st.list_watches env).1
          (registerWatch st.watches st.list_watches env).2 i
        rw [stepRequest_eq_some_zok root now st env resp c' hp he]
        dsimp only
        constructor
        · simp only [wcount_append, wcount_cons_callback, wcount_nil]
          omega
        · omega
      · rw [stepRequest_eq_some_err root now st env resp c' hp he]
        exact ⟨by simpa [wcount_cons_callback, wcount_nil] using hd1, hd2⟩

theorem wcount_cons_expired (j : Nat) (evs : List WEvent) (i : Nat) :
    wcount (WEvent.expired j :: evs) i
      = (if j = i then 1 else 0) + wcount evs i := by
  by_cases h : j = i
  · simp [wcount, List.filter_cons, isWatchInvocation, h]
    omega
  · simp [wcount, List.filter_cons, isWatchInvocation, h]

theorem occCount_cons (env : Envelope) (l : List Envelope) (i : Nat) :
    occCount (env :: l) i
      = (if env.id = i ∧ env.has_watch = true then 1 else 0) + occCount l i := by
  by_cases h1 : env.id = i <;> cases h2 : env.has_watch <;>
    simp [occCount, List.filter_cons, h1, h2] <;> omega

theorem runGo_cons_exn (root : String) (now : Int) (env : Envelope)
    (rest : List Envelope) (st st1 : SState) (evs : List WEvent)
    (h : stepRequest root now st env = (st1, evs, true)) :
    runGo root now (env :: rest) st = (st1, evs, rest) := by
  unfold runGo
  rw [h]

theorem runGo_cons_ok (root : String) (now : Int) (env : Envelope)
    (rest : List Envelope) (st st1 : SState) (evs : List WEvent)
    (h : stepRequest root now st env = (st1, evs, false)) :
    runGo root now (env :: rest) st =
      ((runGo root now rest st1).1, evs ++ (runGo root now rest st1).2.1,
        (runGo root now rest st1).2.2) := by
  conv_lhs => unfold runGo
  rw [h]

theorem runGo_wreg_data (root : String) (now : Int) (i : Nat) :
    ∀ (pend : List Envelope) (st : SState),
      (∀ env ∈ pend, env.id = i → env.has_watch = true →
        env.request.isList = false) →
      wreg st.list_watches i = 0 →
      wreg (runGo root now pend st).1.watches i
          + wcount (runGo root now pend st).2.1 i
          + occCount (runGo root now pend st).2.2 i
        = wreg st.watches i + occCount pend i
      ∧ wreg (runGo root now pend st).1.list_watches i = 0 := by
  intro pend
  induction pend with
  | nil =>
    intro st hmem hL
    exact ⟨by simp [runGo, occCount, wcount_nil], by simpa [runGo] using hL⟩
  | cons env rest ih =>
    intro st hmem hL
    have hstep := step_wreg_data root now st env i hL
      (fun h1 h2 => hmem env (List.mem_cons_self env rest) h1 h2)
    cases hs : stepRequest root now st env with
    | mk st1 q =>
      obtain ⟨evs, exn⟩ := q
      rw [hs] at hstep
      dsimp only at hstep
      cases exn with
      | true =>
        rw [runGo_cons_exn root now env rest st st1 evs hs]
        dsimp only
        rw [occCount_cons]
        have h1 := hstep.1
        exact ⟨by omega, hstep.2⟩
      | false =>
        have hrec := ih st1
          (fun e he h1 h2 => hmem e (List.mem_cons_of_mem env he) h1 h2)
          hstep.2
        rw [runGo_cons_ok root now env rest st st1 evs hs]
        dsimp only
        rw [occCount_cons, wcount_append]
        have h1 := hstep.1
        have h2 := hrec.1
        exact ⟨by omega, hrec.2⟩

theorem runGo_wreg_list (root : String) (now : Int) (i : Nat) :
    ∀ (pend : List Envelope) (st : SState),
      (∀ env ∈ pend, env.id = i → env.has_watch = true →
        env.request.isList = true) →
      wreg st.watches i = 0 →
      wreg (runGo root now pend st).1.list_watches i
          + wcount (runGo root now pend st).2.1 i
          + occCount (runGo root now pend st).2.2 i
        = wreg st.list_watches i + occCount pend i
      ∧ wreg (runGo root now pend st).1.watches i = 0 := by
  intro pend
  induction pend with
  | nil =>
    intro st hmem hD
    exact ⟨by simp [runGo, occCount, wcount_nil], by simpa [runGo] using hD⟩
  | cons env rest ih =>
    intro st hmem hD
    have hstep := step_wreg_list root now st env i hD
      (fun h1 h2 => hmem env (List.mem_cons_self env rest) h1 h2)
    cases hs : stepRequest root now st env with
    | mk st1 q =>
      obtain ⟨evs, exn⟩ := q
      rw [hs] at hstep
      dsimp only at hstep
      cases exn with
      | true =>
        rw [runGo_cons_exn root now env rest st st1 evs hs]
        dsimp only
        rw [occCount_cons]
        have h1 := hstep.1
        exact ⟨by omega, hstep.2⟩
      | false =>
        have hrec := ih st1
          (fun e he h1 h2 => hmem e (List.mem_cons_of_mem env he) h1 h2)
          hstep.2
        rw [runGo_cons_ok root now env rest st st1 evs hs]
        dsimp only
        rw [occCount_cons, wcount_append]
        have h1 := hstep.1
        have h2 := hrec.1
        exact ⟨by omega, hrec.2⟩

theorem wcount_expireWatchEvents (w : Watches) (i : Nat) :
    wcount (expireWatchEvents w) i = wreg w i := by
  induction w with
  | nil => rfl
  | cons e rest ih =>
    obtain ⟨k, cbs⟩ := e
    simp only [expireWatchEvents, wcount_append, wreg, wcount_expired_map, ih]

theorem wcount_drainEvents (l : List Envelope) (i : Nat) :
    wcount (drainEvents l) i = occCount l i := by
  induction l with
  | nil => rfl
  | cons env rest ih =>
    cases hw : env.has_watch with
    | false =>
      by_cases h1 : env.id = i <;>
        simp [drainEvents, hw, wcount_cons_callback, occCount_cons, h1, ih]
    | true =>
      by_cases h1 : env.id = i <;>
        simp [drainEvents, hw, wcount_cons_callback, wcount_append,
          wcount_cons_expired, wcount_nil, occCount_cons, h1, ih]

/-- Claim C4 (amended): over a whole session (the mutator loop over the
submitted envelopes followed by finalization), a registered watch
callback attached to a non-List request (a data watch) is invoked
exactly once — fired by a successful mutation or delivered the
session-expired response by finalize; a watch attached to a List
request (a child watch) is invoked at most once, and can be invoked
zero times because finalize walks only the data-watch registry. -/
theorem watchInvokedOnce (root : String) (now : Int) (reqs : List Envelope)
    (i : Nat) (hocc : occCount reqs i = 1) :
    ((∀ env ∈ reqs, env.id = i → env.has_watch = true →
        env.request.isList = false) →
      wcount (runSession root now reqs).2 i = 1) ∧
    ((∀ env ∈ reqs, env.id = i → env.has_watch = true →
        env.request.isList = true) →
      wcount (runSession root now reqs).2 i ≤ 1) := by
  constructor
  · intro hmem
    have h := runGo_wreg_data root now i reqs initState hmem (by rfl)
    have h1 := h.1
    have h0 : wreg initState.watches i = 0 := rfl
    simp only [runSession, wcount_append, wcount_expireWatchEvents,
      wcount_drainEvents]
    omega
  · intro hmem
    have h := runGo_wreg_list root now i reqs initState hmem (by rfl)
    have h1 := h.1
    have h2 := h.2
    have h0 : wreg initState.list_watches i = 0 := rfl
    simp only [runSession, wcount_append, wcount_expireWatchEvents,
      wcount_drainEvents]
    omega

/-- Claim C4 witness: a session with a single Get watch invokes that
watch exactly once (here: by the finalize walk). -/
theorem watchInvokedOnce_witness :
    wcount (runSession "" 0 [⟨0, TKRequest.get "/a", true⟩]).2 0 = 1 := by
  exact (watchInvokedOnce "" 0 [⟨0, TKRequest.get "/a", true⟩] 0
    (by decide)).1 (by decide)

/-- Claim C4 counterexample: a registered List (child) watch on a path
that is never mutated is invoked zero times over the life of the
session — finalize does not walk the child-watch registry — refuting
"exactly once" for every registered watch callback. -/
theorem listWatchNeverInvoked :
    occCount [⟨0, TKRequest.list "/", true⟩] 0 = 1 ∧
      wcount (runSession "" 0 [⟨0, TKRequest.list "/", true⟩]).2 0 = 0 := by
  exact ⟨rfl, rfl⟩

/-- Claim C9: removing the root path "/" when the root is present with
numChildren 0 and version check disabled erases the root entry, and the
subsequent checked lookup of parentPath("/") = "/" fails: the operation
throws (none) instead of returning a response, leaving the container
without the root node. -/
theorem removeRoot_throws :
    removeProcess "/" (-1) [("/", initNode)] = (none, ([] : Container)) ∧
      cFind (removeProcess "/" (-1) [("/", initNode)]).2 "/" = none := by
  exact ⟨rfl, rfl⟩

/-- Claim C2 (divergence witness): a successful Set on an existing node
with a matching expected version replaces the data, increments version,
sets mzxid and mtime, and bumps the parent's cversion, but leaves
stat.dataLength at its old value — the new data "v1" has length 2 while
dataLength stays 0, so stat.dataLength no longer equals the length of
the stored data. -/
theorem setLeavesDataLengthStale :
    (setProcess "/k" "v1" 0
        (createProcess "/k" "" false false [("/", initNode)] 1 0).2 2 5).1
      = some (.set ⟨1, 2, 0, 5, 1, 0, 0, 0⟩ KError.ZOK) ∧
    (cFind (setProcess "/k" "v1" 0
        (createProcess "/k" "" false false [("/", initNode)] 1 0).2 2 5).2 "/k").map
        (fun n => (n.data, n.stat.version, n.stat.mzxid, n.stat.dataLength))
      = some ("v1", 1, 2, 0) ∧
    (cFind (setProcess "/k" "v1" 0
        (createProcess "/k" "" false false [("/", initNode)] 1 0).2 2 5).2 "/").map
        (fun n => n.stat.cversion) = some 2 ∧
    (("v1".length : Int) = 2 ∧ (2 : Int) ≠ 0) := by
  refine ⟨by rfl, by rfl, by rfl, by decide, by decide⟩

/-- Whether constructing a multi from the generic list succeeded. -/
def builtOk : Except KError (List TKSubRequest) → Bool
  | .ok _ => true
  | .error _ => false

theorem toSubRequest_admissible (r : GenericRequest) :
    (toSubRequest r).isSome = admissibleInMulti r := by
  cases r <;> rfl

/-- Claim C7: constructing a multi-request succeeds exactly when every
sub-request is a Create, Remove, Set or Check; any other kind makes
construction fail with ZBADARGUMENTS (before anything is enqueued or
applied: construction is prior to pushRequest). -/
theorem multiConstruction (rs : List GenericRequest) :
    (builtOk (buildMulti rs) = rs.all admissibleInMulti) ∧
      (rs.all admissibleInMulti = false →
        buildMulti rs = .error KError.ZBADARGUMENTS) := by
  induction rs with
  | nil => exact ⟨rfl, by intro h; simp at h⟩
  | cons r rest ih =>
    cases hts : toSubRequest r with
    | none =>
      have hadm : admissibleInMulti r = false := by
        have := toSubRequest_admissible r
        rw [hts] at this
        exact this.symm
      constructor
      · simp [buildMulti, hts, builtOk, List.all_cons, hadm]
      · intro _
        simp [buildMulti, hts]
    | some s =>
      have hadm : admissibleInMulti r = true := by
        have := toSubRequest_admissible r
        rw [hts] at this
        exact this.symm
      cases hbm : buildMulti rest with
      | ok ss =>
        have h1 : rest.all admissibleInMulti = true := by
          have := ih.1
          rw [hbm] at this
          exact this.symm
        constructor
        · simp [buildMulti, hts, hbm, builtOk, List.all_cons, hadm, h1]
        · intro hfalse
          rw [List.all_cons, hadm, Bool.true_and, h1] at hfalse
          cases hfalse
      | error e =>
        have h1 : rest.all admissibleInMulti = false := by
          have := ih.1
          rw [hbm] at this
          exact this.symm
        have h2 : buildMulti rest = Except.error KError.ZBADARGUMENTS := ih.2 h1
        rw [hbm] at h2
        cases h2
        constructor
        · simp [buildMulti, hts, hbm, builtOk, List.all_cons, hadm, h1]
        · intro _
          simp [buildMulti, hts, hbm]

/-- Claim C7 witness: a multi containing a Get fails with ZBADARGUMENTS,
and one of only admissible kinds succeeds. -/
theorem multiConstruction_witness :
    buildMulti [GenericRequest.get "/x", GenericRequest.create "/a" "" false false]
        = .error KError.ZBADARGUMENTS ∧
      builtOk (buildMulti [GenericRequest.create "/a" "" false false,
        GenericRequest.check "/a" (-1)]) = true := by
  constructor
  · exact (multiConstruction [GenericRequest.get "/x",
      GenericRequest.create "/a" "" false false]).2 (by decide)
  · exact (multiConstruction [GenericRequest.create "/a" "" false false,
      GenericRequest.check "/a" (-1)]).1

/-- Claim C8: once the expired flag is set, every push fails with
ZSESSIONEXPIRED before touching the queue: the state (queue included)
is returned unchanged and no drain events are produced, so a
finalization drain observes a stable queue. -/
theorem pushAfterExpired (st : KState) (env : Envelope)
    (h : st.expired = true) :
    pushRequest st env = (.failed KError.ZSESSIONEXPIRED, st, []) := by
  simp [pushRequest, finalizeSession, h]

/-- Claim C8 witness. -/
theorem pushAfterExpired_witness :
    pushRequest ⟨true, 4, [], [], []⟩ ⟨0, TKRequest.get "/a", false⟩
      = (.failed KError.ZSESSIONEXPIRED, ⟨true, 4, [], [], []⟩, []) := by
  exact pushAfterExpired ⟨true, 4, [], [], []⟩ ⟨0, TKRequest.get "/a", false⟩ rfl

/-- Claim C10: every failure inside pushRequest — the ZSESSIONEXPIRED
rejection and the enqueue timeout ZOPERATIONTIMEOUT — routes through
finalize before rethrowing, so the session ends expired; when the
session was still live, the finalize drain delivers a session-expired
response to the completion callback of every queued envelope (and to
its watch, when attached). -/
theorem pushFailureFinalizes (st : KState) (env : Envelope)
    (res : PushResult) (st2 : KState) (evs : List WEvent)
    (h : pushRequest st env = (res, st2, evs)) (hres : res ≠ .ok) :
    (res = .failed KError.ZSESSIONEXPIRED ∨
       res = .failed KError.ZOPERATIONTIMEOUT) ∧
    (st2, evs) = finalizeSession st ∧ st2.expired = true ∧
    (st.expired = false → ∀ e ∈ st.queue,
      WEvent.callback e.id KError.ZSESSIONEXPIRED ∈ evs ∧
        (e.has_watch = true → WEvent.expired e.id ∈ evs)) := by
  by_cases hexp : st.expired = true
  · have hp : pushRequest st env =
        (.failed KError.ZSESSIONEXPIRED,
          (finalizeSession st).1, (finalizeSession st).2) := by
      simp [pushRequest, hexp]
    rw [hp] at h
    injection h with h1 h23
    injection h23 with h2 h3
    have hfin : finalizeSession st = (st, []) := by
      simp [finalizeSession, hexp]
    refine ⟨Or.inl h1.symm, ?_, ?_, ?_⟩
    · rw [← h2, ← h3]
    · rw [← h2, hfin]
      exact hexp
    · intro hfalse
      rw [hexp] at hfalse
      cases hfalse
  · have hexp' : st.expired = false := by
      cases hb : st.expired
      · rfl
      · exact absurd hb hexp
    by_cases hfull : st.capacity ≤ st.queue.length
    · have hp : pushRequest st env =
          (.failed KError.ZOPERATIONTIMEOUT,
            (finalizeSession st).1, (finalizeSession st).2) := by
        simp [pushRequest, hexp', hfull]
      rw [hp] at h
      injection h with h1 h23
      injection h23 with h2 h3
      have hfin : finalizeSession st =
          ({ st with expired := true, watches := [], queue := [] },
            expireWatchEvents st.watches ++ drainEvents st.queue) := by
        simp [finalizeSession, hexp']
      refine ⟨Or.inr h1.symm, ?_, ?_, ?_⟩
      · rw [← h2, ← h3]
      · rw [← h2, hfin]
      · intro _ e he
        have hd := drainEvents_mem st.queue e he
        rw [← h3, hfin]
        exact ⟨List.mem_append_right _ hd.1,
          fun hw => List.mem_append_right _ (hd.2 hw)⟩
    · have hp : pushRequest st env =
          (.ok, { st with queue := st.queue ++ [env] }, []) := by
        simp [pushRequest, hexp', hfull]
      rw [hp] at h
      injection h with h1 h23
      exact absurd h1.symm hres

/-- Claim C10 witness: a push into a full queue of a live session
expires the session and delivers ZSESSIONEXPIRED to the queued
callback. -/
theorem pushFailureFinalizes_witness :
    (pushRequest ⟨false, 0, [], [], [⟨7, TKRequest.get "/q", true⟩]⟩
        ⟨9, TKRequest.get "/z", false⟩).2.1.expired = true ∧
      WEvent.callback 7 KError.ZSESSIONEXPIRED ∈
        (pushRequest ⟨false, 0, [], [], [⟨7, TKRequest.get "/q", true⟩]⟩
          ⟨9, TKRequest.get "/z", false⟩).2.2 := by
  have h := pushFailureFinalizes
    ⟨false, 0, [], [], [⟨7, TKRequest.get "/q", true⟩]⟩
    ⟨9, TKRequest.get "/z", false⟩
    (pushRequest ⟨false, 0, [], [], [⟨7, TKRequest.get "/q", true⟩]⟩
      ⟨9, TKRequest.get "/z", false⟩).1
    (pushRequest ⟨false, 0, [], [], [⟨7, TKRequest.get "/q", true⟩]⟩
      ⟨9, TKRequest.get "/z", false⟩).2.1
    (pushRequest ⟨false, 0, [], [], [⟨7, TKRequest.get "/q", true⟩]⟩
      ⟨9, TKRequest.get "/z", false⟩).2.2
    rfl (by decide)
  refine ⟨h.2.2.1, ?_⟩
  exact (h.2.2.2 rfl ⟨7, TKRequest.get "/q", true⟩ (by decide)).1

end TK
